import Mathlib

/-!
Verification of the decay-weighted risk engine of `backend/app/hawkes_model.py`.

Shallow embedding conventions:
* Python floats that only undergo field arithmetic, `min`, `ceil` (the grid
  builder, the request parameters, the cache key inputs) are modelled as `ℚ`,
  so the corresponding definitions are computable and decidable.
* The transcendental risk math (`math.sqrt`, `math.exp`, `math.sin`, ...) is
  modelled over `ℝ` with `Real.sqrt`, `Real.exp`, etc.
* Fallible code (Python exceptions) is modelled with `Option`: `none` is a
  raised exception.
* `hashlib.sha1(s).hexdigest()` is deterministic and injective up to hash
  collisions, so cache keys are modelled by the pre-hash string `s` itself:
  two requests get the same digest iff they build the same string (up to
  collisions, which is what "with overwhelming probability" refers to).
-/

/-- Tunable constant `TIME_DECAY_DAYS = 30.0` from `hawkes_model.py`. -/
noncomputable def TIME_DECAY_DAYS : ℝ := 30

/-- Tunable constant `SPATIAL_SIGMA_KM = 200.0` from `hawkes_model.py`. -/
noncomputable def SPATIAL_SIGMA_KM : ℝ := 200

/-- Constant `EARTH_RADIUS_KM = 6371.0` from `hawkes_model.py`. -/
noncomputable def EARTH_RADIUS_KM : ℝ := 6371

/-- `math.radians`: degrees to radians, used by `haversine_km`. -/
noncomputable def radians (deg : ℝ) : ℝ := deg * Real.pi / 180

/-- `haversine_km(lon1, lat1, lon2, lat2)` from `hawkes_model.py`:
great-circle distance in kilometers. -/
noncomputable def haversine_km (lon1 lat1 lon2 lat2 : ℝ) : ℝ :=
  let l1 := radians lon1
  let p1 := radians lat1
  let l2 := radians lon2
  let p2 := radians lat2
  let dlon := l2 - l1
  let dlat := p2 - p1
  let a := Real.sin (dlat / 2) ^ 2 +
    Real.cos p1 * Real.cos p2 * Real.sin (dlon / 2) ^ 2
  let c := 2 * Real.arcsin (Real.sqrt a)
  EARTH_RADIUS_KM * c

/-- A grid cell produced by `_make_grid`: the shapely `box(x1, y1, x2, y2)`
together with the centroid columns `centroid_x`, `centroid_y`. -/
structure GridCell where
  x1 : ℚ
  y1 : ℚ
  x2 : ℚ
  y2 : ℚ
  cx : ℚ
  cy : ℚ
deriving DecidableEq

/-- The cell appended by `_make_grid` at loop indices `(i, j)`:
`x1 = minx + i*cell`, `y1 = miny + j*cell`, far edges clipped with `min`,
centroid the midpoint of the (clipped) extent. -/
def cellAt (minx miny maxx maxy cell : ℚ) (i j : ℕ) : GridCell :=
  let x1 := minx + i * cell
  let y1 := miny + j * cell
  let x2 := min (x1 + cell) maxx
  let y2 := min (y1 + cell) maxy
  ⟨x1, y1, x2, y2, (x1 + x2) / 2, (y1 + y2) / 2⟩

/-- The list of cells built by `_make_grid`'s double loop
`for i in range(cols): for j in range(rows)` (column-major: the outer index
walks the x axis). `int(math.ceil(...))` on a nonnegative argument is
`Int.ceil`; Python's `range` of a negative count is empty, which `Int.toNat`
reproduces. -/
def gridCells (minx miny maxx maxy cell : ℚ) : List GridCell :=
  let cols := (⌈(maxx - minx) / cell⌉).toNat
  let rows := (⌈(maxy - miny) / cell⌉).toNat
  (List.range cols).flatMap fun i =>
    (List.range rows).map fun j => cellAt minx miny maxx maxy cell i j

/-- `_make_grid(minx, miny, maxx, maxy, cell_size_deg)` from `hawkes_model.py`.
With `cell_size_deg = 0` the very first expression `(maxx - minx) / cell_size_deg`
raises `ZeroDivisionError` (modelled as `none`); otherwise the grid is built. -/
def makeGrid (minx miny maxx maxy cell : ℚ) : Option (List GridCell) :=
  if cell = 0 then none else some (gridCells minx miny maxx maxy cell)

/-- The four resolved bounding-box floats `(minx, miny, maxx, maxy)`. -/
structure BBox where
  minx : ℚ
  miny : ℚ
  maxx : ℚ
  maxy : ℚ
deriving DecidableEq

/-- The default world extent `-180.0, -90.0, 180.0, 90.0` of `predict_risk`. -/
def worldBBox : BBox := ⟨-180, -90, 180, 90⟩

/-- The bbox handling block of `predict_risk`: an absent bbox, and a bbox
string that fails to parse into four floats, both fall back to the world
extent (we model "absent or unparsable" as `none`); otherwise the four
parsed floats are used. -/
def resolveBBox : Option BBox → BBox
  | none => worldBBox
  | some b => b

/-- Serialization of the resolved bounds as in the f-string
`f'{minx},{miny},{maxx},{maxy}'` of `predict_risk` (the numeric rendering
is `toString` on `ℚ`; only its determinism matters below). -/
def bboxString (b : BBox) : String :=
  toString b.minx ++ "," ++ toString b.miny ++ "," ++ toString b.maxx ++ "," ++ toString b.maxy

/-- The pre-hash string built by `_cache_key('predict', bbox=..., horizon=...,
cell=...)`: `sorted(kwargs.items())` orders the keys alphabetically
(`bbox`, `cell`, `horizon`), and the pieces are joined with `|` after the
prefix. -/
def cacheKeyString (bboxStr : String) (cell : ℚ) (horizon : ℤ) : String :=
  "predict" ++ "|" ++ "bbox=" ++ bboxStr ++ "|" ++ "cell=" ++ toString cell ++
    "|" ++ "horizon=" ++ toString horizon

/-- The cache key computed by `predict_risk` for a full request
`(bbox, horizon_days, agg, cell_size_deg, lookback_days)`: only the resolved
bbox, `horizon_days` and `cell_size_deg` flow into `_cache_key`; `agg` and
`lookback_days` do not appear in the key (mirroring line 106 of the source). -/
def predictCacheKey (bbox : Option BBox) (horizon : ℤ) (agg : String)
    (cell : ℚ) (lookback : ℤ) : String :=
  cacheKeyString (bboxString (resolveBBox bbox)) cell horizon

/-- An event row as used by `predict_risk` after the cleaning block:
`nkill = none` models a missing / non-numeric fatality count (NaN after
`pd.to_numeric(..., errors='coerce')`), and `date` is the occurrence time
measured in days on the same axis as the reference time `now`. -/
structure Event where
  longitude : ℝ
  latitude : ℝ
  nkill : Option ℝ
  date : ℝ

/-- The `fillna(0.0)` step: a missing / non-numeric `nkill` becomes `0.0`. -/
def cleanNkill (raw : Option ℝ) : ℝ := raw.getD 0

/-- The severity column `df['severity'] = (1.0 + df['nkill']) ** 0.5`.
Note the source does NOT clamp `nkill` at zero before the square root. -/
noncomputable def severity (nkill : ℝ) : ℝ := Real.sqrt (1 + nkill)

/-- Modelled from the spec: `severity(event) = sqrt(1 + max(0, fatalityCount))`,
the formula stated in section 4.3, used only to compare against the code's
`severity`. -/
noncomputable def severitySpec (nkill : ℝ) : ℝ := Real.sqrt (1 + max 0 nkill)

/-- An event's severity factor after cleaning. -/
noncomputable def eventSeverity (e : Event) : ℝ := severity (cleanNkill e.nkill)

/-- The temporal decay column: `tdays = (now - date)` in days, clipped below
at `0.0`, then `exp(-t / TIME_DECAY_DAYS)`. -/
noncomputable def temporalDecay (now : ℝ) (e : Event) : ℝ :=
  Real.exp (-(max 0 (now - e.date)) / TIME_DECAY_DAYS)

/-- The spatial decay `math.exp(-d_km / SPATIAL_SIGMA_KM)`. -/
noncomputable def spatialDecay (dKm : ℝ) : ℝ := Real.exp (-dKm / SPATIAL_SIGMA_KM)

/-- The inner loop of `predict_risk`: one cell's raw risk is the sum over all
events of `severity * temporal_decay * spatial_decay(haversine(cx, cy, elon,
elat))`. (The `except` branch setting `d_km = 10000.0` guards float overflow
exceptions, which have no counterpart over `ℝ`.) -/
noncomputable def cellRawRisk (now : ℝ) (events : List Event) (c : GridCell) : ℝ :=
  (events.map fun e =>
    eventSeverity e * temporalDecay now e *
      spatialDecay (haversine_km (c.cx : ℝ) (c.cy : ℝ) e.longitude e.latitude)).sum

/-- The `raw_risk` column over the whole grid. -/
noncomputable def rawRisks (now : ℝ) (events : List Event) (grid : List GridCell) : List ℝ :=
  grid.map (cellRawRisk now events)

/-- `gdf_grid['raw_risk'].max()` with the all-NaN/empty guard defaulting to
`0.0`. Over `ℝ` there are no NaNs and all raw risks are nonnegative, so the
fold with base `0` agrees with the pandas maximum on every reachable input. -/
noncomputable def maxRaw (raws : List ℝ) : ℝ := raws.foldr max 0

/-- The normalization block: if `maxr > 0` divide every raw score by it,
otherwise set every risk to `0.0`. -/
noncomputable def normalizeRisks (raws : List ℝ) : List ℝ :=
  if 0 < maxRaw raws then raws.map fun r => r / maxRaw raws
  else raws.map fun _ => 0

/-- The output of `predict_risk`: a FeatureCollection of grid cells with a
`risk` property, or (country mode) of named zones with `risk` and `name`. -/
inductive RiskOutput where
  | cells : List (GridCell × ℝ) → RiskOutput
  | zones : List (String × ℝ) → RiskOutput

/-- The rows of `gpd.sjoin(gdf_grid, countries, how='left',
predicate='intersects')` that carry a country name: one row per
(cell, intersecting country) pair. The `how='left'` rows with no match carry
a NaN name and are dropped by the subsequent `groupby('name')`, so they are
not materialized here. -/
def sjoinRows (surface : List (GridCell × ℝ)) (names : List String)
    (intersects : GridCell → String → Bool) : List (GridCell × ℝ × String) :=
  surface.flatMap fun cr =>
    (names.filter fun n => intersects cr.1 n).map fun n => (cr.1, cr.2, n)

/-- The countries a given cell is associated with by the spatial join. -/
def assocNames (names : List String) (intersects : GridCell → String → Bool)
    (c : GridCell) : List String :=
  names.filter fun n => intersects c n

/-- The cells associated with a given country name by the spatial join. -/
def assocCells (surface : List (GridCell × ℝ))
    (intersects : GridCell → String → Bool) (n : String) : List (GridCell × ℝ) :=
  surface.filter fun cr => intersects cr.1 n

/-- `joined.groupby('name')['risk'].mean()` followed by the feature loop of
`predict_risk`: for every country name that received at least one join row,
emit `(name, mean of the risks of its join rows)`. (Pandas iterates group
keys in sorted order; we keep the `names` order, which no claim concerns.)
The country geometry of the external dataset is abstracted into the
`intersects` predicate. -/
noncomputable def zonalReduce (surface : List (GridCell × ℝ)) (names : List String)
    (intersects : GridCell → String → Bool) : List (String × ℝ) :=
  (names.filter fun n =>
      !((sjoinRows surface names intersects).filter fun r => r.2.2 == n).isEmpty).map
    fun n =>
      let g := (sjoinRows surface names intersects).filter fun r => r.2.2 == n
      (n, (g.map fun r => r.2.1).sum / (g.length : ℝ))

/-- The cache-miss computation of `predict_risk` (everything after the cache
lookup): fetch events (`storeEvents = none` models a raised store query,
caught and replaced by an empty dataframe), build the grid, and either return
the all-zero surface (empty dataframe) or the normalized risk surface,
reduced zonally when `agg == 'country'` and the country step succeeds
(`zonalStep` abstracts lines 174-187 over the external country dataset;
`none` is the `except: pass` fallback). `horizon_days` and `lookback_days`
are not read anywhere in this computation (`lookback_days` only parametrizes
the SQL text whose result set `storeEvents` models). -/
noncomputable def predictCompute
    (zonalStep : List (GridCell × ℝ) → Option (List (String × ℝ)))
    (b : BBox) (agg : String) (cell : ℚ)
    (storeEvents : Option (List Event)) (now : ℝ) : Option RiskOutput :=
  let df := storeEvents.getD []
  match makeGrid b.minx b.miny b.maxx b.maxy cell with
  | none => none
  | some grid =>
    if df.isEmpty then
      some (RiskOutput.cells (grid.map fun c => (c, 0)))
    else
      let raws := grid.map (cellRawRisk now df)
      let risks := normalizeRisks raws
      let surface := grid.zip risks
      if agg = "country" then
        match zonalStep surface with
        | some zs => some (RiskOutput.zones zs)
        | none => some (RiskOutput.cells surface)
      else
        some (RiskOutput.cells surface)

/-- `predict_risk` from `hawkes_model.py`, with the on-disk pickle cache
modelled as an association list threaded through the call: resolve the bbox,
compute the cache key, return a hit immediately, otherwise run the
computation, store the result under the key, and return it. A top-level
`none` is a propagated exception (the `ZeroDivisionError` of `_make_grid`). -/
noncomputable def predict_risk
    (zonalStep : List (GridCell × ℝ) → Option (List (String × ℝ)))
    (cache : List (String × RiskOutput))
    (horizon : ℤ) (bbox : Option BBox) (agg : String) (cell : ℚ) (lookback : ℤ)
    (storeEvents : Option (List Event)) (now : ℝ) :
    Option (RiskOutput × List (String × RiskOutput)) :=
  let key := predictCacheKey bbox horizon agg cell lookback
  match List.lookup key cache with
  | some v => some (v, cache)
  | none =>
    match predictCompute zonalStep (resolveBBox bbox) agg cell storeEvents now with
    | none => none
    | some out => some (out, (key, out) :: cache)

lemma sin_sq_swap (x y : ℝ) :
    Real.sin ((x - y) / 2) ^ 2 = Real.sin ((y - x) / 2) ^ 2 := by
  rw [show (x - y) / 2 = -((y - x) / 2) by ring, Real.sin_neg]
  ring

/-- C9: the great-circle distance of `hawkes_model.py` vanishes on coincident
points, and is symmetric in its two points. -/
theorem C9_haversine_self_and_symm :
    (∀ lon lat : ℝ, haversine_km lon lat lon lat = 0) ∧
      (∀ lon1 lat1 lon2 lat2 : ℝ,
        haversine_km lon1 lat1 lon2 lat2 = haversine_km lon2 lat2 lon1 lat1) := by
  constructor
  · intro lon lat
    simp [haversine_km]
  · intro lon1 lat1 lon2 lat2
    simp only [haversine_km]
    rw [sin_sq_swap (radians lat2) (radians lat1),
      sin_sq_swap (radians lon2) (radians lon1),
      mul_comm (Real.cos (radians lat1)) (Real.cos (radians lat2))]

/-- C1 (bug demonstration): the cache key of `predict_risk` is built from the
resolved bbox, `horizon_days` and `cell_size_deg` only, so two requests that
differ only in the output-affecting `agg` parameter (or only in
`lookback_days`) get the same key; consequently a country-mode result stored
in the cache is later returned verbatim to a cell-mode request with the same
bbox/horizon/cell size, whatever the event store holds then. -/
theorem C1_cache_key_ignores_agg_and_lookback :
    (predictCacheKey none 7 "cell" 1 365 = predictCacheKey none 7 "country" 1 365 ∧
      predictCacheKey none 7 "cell" 1 365 = predictCacheKey none 7 "cell" 1 30) ∧
    (∀ e : Event,
      predict_risk (fun _ => some [("X", 1)]) [] 7 none "country" 1 365 (some [e]) 0 =
        some (RiskOutput.zones [("X", 1)],
          [(predictCacheKey none 7 "country" 1 365, RiskOutput.zones [("X", 1)])])) ∧
    (∀ (laterStore : Option (List Event)) (now2 : ℝ),
      predict_risk (fun _ => none)
          [(predictCacheKey none 7 "country" 1 365, RiskOutput.zones [("X", 1)])]
          7 none "cell" 1 365 laterStore now2 =
        some (RiskOutput.zones [("X", 1)],
          [(predictCacheKey none 7 "country" 1 365, RiskOutput.zones [("X", 1)])])) :=
  ⟨⟨rfl, rfl⟩, fun _ => rfl, fun _ _ => rfl⟩

/-- C2 counterexample: at fatality count `-1` the code computes
`sqrt(1 + (-1)) = 0`, while the claimed formula `sqrt(1 + max(0, -1))`
gives `1`; the code does not clamp negative fatality counts. -/
theorem C2_counterexample :
    severity (cleanNkill (some (-1))) = 0 ∧
      severitySpec (cleanNkill (some (-1))) = 1 ∧
      severity (cleanNkill (some (-1))) ≠ severitySpec (cleanNkill (some (-1))) := by
  have h1 : severity (cleanNkill (some (-1))) = 0 := by
    simp [severity, cleanNkill]
  have h2 : severitySpec (cleanNkill (some (-1))) = 1 := by
    simp [severitySpec, cleanNkill]
  refine ⟨h1, h2, ?_⟩
  rw [h1, h2]
  norm_num

/-- C2 amended: the severity weight is `sqrt(1 + fatalityCount)` with missing
or non-numeric counts coerced to `0`; this agrees with the claimed
`sqrt(1 + max(0, fatalityCount))` for every nonnegative count (in particular
it is `1` for `0` fatalities and `2` for `3` fatalities), but differs for
negative counts. -/
theorem C2_severity_amended :
    (∀ n : ℝ, 0 ≤ n → severity n = severitySpec n) ∧
      severity (cleanNkill none) = 1 ∧
      severity (cleanNkill (some 0)) = 1 ∧
      severity (cleanNkill (some 3)) = 2 := by
  refine ⟨fun n hn => ?_, ?_, ?_, ?_⟩
  · rw [severity, severitySpec, max_eq_right hn]
  · simp [severity, cleanNkill]
  · simp [severity, cleanNkill]
  · rw [severity, cleanNkill]
    norm_num
    rw [show (4 : ℝ) = 2 ^ 2 by norm_num, Real.sqrt_sq (by norm_num : (0:ℝ) ≤ 2)]

/-- C2 witness for the amended theorem at count `3`. -/
theorem C2_severity_amended_witness :
    (0:ℝ) ≤ 3 ∧ severity 3 = severitySpec 3 :=
  ⟨by norm_num, C2_severity_amended.1 3 (by norm_num)⟩

lemma gridCells_eq_nil (minx miny maxx maxy c : ℚ) (hc : c < 0) (hx : minx ≤ maxx) :
    gridCells minx miny maxx maxy c = [] := by
  have hdiv : (maxx - minx) / c ≤ 0 :=
    div_nonpos_of_nonneg_of_nonpos (by linarith) hc.le
  have hceil : ⌈(maxx - minx) / c⌉ ≤ 0 := by
    rw [Int.ceil_le]
    exact_mod_cast hdiv
  have h0 : (⌈(maxx - minx) / c⌉).toNat = 0 := Int.toNat_of_nonpos hceil
  simp [gridCells, h0]

/-- C3 counterexample: a negative `cell_size_deg` is not rejected:
`_make_grid` raises nothing and silently returns an empty grid
(an empty `range` on a negative cell count), a degenerate result. -/
theorem C3_counterexample : makeGrid 0 0 20 20 (-1) = some [] := by
  rw [makeGrid, if_neg (by norm_num)]
  rw [gridCells_eq_nil 0 0 20 20 (-1) (by norm_num) (by norm_num)]

/-- C3 amended: only `cell_size_deg = 0` produces a hard failure (the
`ZeroDivisionError` of the first division, modelled as `none`); a negative
`cell_size_deg` is not rejected as an invalid-input error but silently
yields an empty grid for every bounding box with `minx ≤ maxx`. -/
theorem C3_cell_size_amended :
    (∀ minx miny maxx maxy : ℚ, makeGrid minx miny maxx maxy 0 = none) ∧
      (∀ minx miny maxx maxy c : ℚ, c < 0 → minx ≤ maxx →
        makeGrid minx miny maxx maxy c = some []) := by
  constructor
  · intro minx miny maxx maxy
    simp [makeGrid]
  · intro minx miny maxx maxy c hc hx
    rw [makeGrid, if_neg hc.ne, gridCells_eq_nil minx miny maxx maxy c hc hx]

/-- C3 witness for the amended theorem at cell size `-1`. -/
theorem C3_cell_size_amended_witness :
    (-1 : ℚ) < 0 ∧ (0 : ℚ) ≤ 20 ∧ makeGrid 0 0 20 20 (-1) = some [] :=
  ⟨by norm_num, by norm_num,
    C3_cell_size_amended.2 0 0 20 20 (-1) (by norm_num) (by norm_num)⟩

lemma le_foldr_max {l : List ℝ} {a : ℝ} (b : ℝ) (h : a ∈ l) : a ≤ l.foldr max b := by
  induction l with
  | nil => cases h
  | cons x xs ih =>
    simp only [List.foldr_cons]
    rcases List.mem_cons.mp h with rfl | hmem
    · exact le_max_left _ _
    · exact le_trans (ih hmem) (le_max_right _ _)

lemma foldr_max_le {l : List ℝ} {b c : ℝ} (hb : b ≤ c) (h : ∀ a ∈ l, a ≤ c) :
    l.foldr max b ≤ c := by
  induction l with
  | nil => exact hb
  | cons x xs ih =>
    simp only [List.foldr_cons]
    exact max_le (h x (by simp)) (ih fun a ha => h a (by simp [ha]))

lemma foldr_max_mem (l : List ℝ) (b : ℝ) : l.foldr max b = b ∨ l.foldr max b ∈ l := by
  induction l with
  | nil => exact Or.inl rfl
  | cons x xs ih =>
    simp only [List.foldr_cons]
    rcases le_total x (xs.foldr max b) with hle | hle
    · rw [max_eq_right hle]
      rcases ih with h | h
      · exact Or.inl h
      · exact Or.inr (List.mem_cons_of_mem _ h)
    · rw [max_eq_left hle]
      exact Or.inr (List.mem_cons_self _ _)

lemma cellRawRisk_nonneg (now : ℝ) (events : List Event) (c : GridCell) :
    0 ≤ cellRawRisk now events c := by
  apply List.sum_nonneg
  intro x hx
  simp only [List.mem_map] at hx
  obtain ⟨e, _, rfl⟩ := hx
  have h1 : 0 ≤ eventSeverity e := Real.sqrt_nonneg _
  have h2 : 0 < temporalDecay now e := Real.exp_pos _
  have h3 : 0 < spatialDecay (haversine_km (c.cx : ℝ) (c.cy : ℝ) e.longitude e.latitude) :=
    Real.exp_pos _
  exact mul_nonneg (mul_nonneg h1 h2.le) h3.le

lemma rawRisks_nonneg (now : ℝ) (events : List Event) (grid : List GridCell) :
    ∀ r ∈ rawRisks now events grid, 0 ≤ r := by
  intro r hr
  obtain ⟨c, _, rfl⟩ := List.mem_map.mp hr
  exact cellRawRisk_nonneg now events c

/-- C5: after aggregation, if the maximum raw score is positive then every
cell's risk is its raw score divided by the maximum, the maximum normalized
risk is exactly `1`, and every risk lies in `[0, 1]`; if the maximum raw
score is `0`, every cell's risk is exactly `0`. -/
theorem C5_normalization (now : ℝ) (events : List Event) (grid : List GridCell) :
    (0 < maxRaw (rawRisks now events grid) →
        normalizeRisks (rawRisks now events grid) =
            (rawRisks now events grid).map
              (fun r => r / maxRaw (rawRisks now events grid)) ∧
          (normalizeRisks (rawRisks now events grid)).foldr max 0 = 1 ∧
          ∀ r ∈ normalizeRisks (rawRisks now events grid), 0 ≤ r ∧ r ≤ 1) ∧
      (maxRaw (rawRisks now events grid) = 0 →
        ∀ r ∈ normalizeRisks (rawRisks now events grid), r = 0) := by
  have hnn := rawRisks_nonneg now events grid
  constructor
  · intro hpos
    have heq : normalizeRisks (rawRisks now events grid) =
        (rawRisks now events grid).map
          (fun r => r / maxRaw (rawRisks now events grid)) := by
      rw [normalizeRisks, if_pos hpos]
    have hmem : maxRaw (rawRisks now events grid) ∈ rawRisks now events grid := by
      rcases foldr_max_mem (rawRisks now events grid) 0 with h | h
      · simp only [maxRaw] at hpos
        rw [h] at hpos
        exact absurd hpos (lt_irrefl 0)
      · exact h
    have hub : ∀ r ∈ rawRisks now events grid, r ≤ maxRaw (rawRisks now events grid) :=
      fun r hr => le_foldr_max 0 hr
    have hbounds : ∀ r ∈ normalizeRisks (rawRisks now events grid), 0 ≤ r ∧ r ≤ 1 := by
      rw [heq]
      intro r hr
      obtain ⟨a, ha, rfl⟩ := List.mem_map.mp hr
      exact ⟨div_nonneg (hnn a ha) hpos.le, (div_le_one hpos).mpr (hub a ha)⟩
    refine ⟨heq, ?_, hbounds⟩
    have hone : (1 : ℝ) ∈ normalizeRisks (rawRisks now events grid) := by
      rw [heq]
      refine List.mem_map.mpr ⟨maxRaw (rawRisks now events grid), hmem, ?_⟩
      exact div_self hpos.ne'
    refine le_antisymm ?_ (le_foldr_max 0 hone)
    exact foldr_max_le (by norm_num) fun a ha => (hbounds a ha).2
  · intro hzero
    rw [normalizeRisks, if_neg (by rw [hzero]; exact lt_irrefl 0)]
    intro r hr
    obtain ⟨a, _, rfl⟩ := List.mem_map.mp hr
    rfl

/-- A concrete unit grid cell used by witnesses below. -/
def unitCell : GridCell := ⟨0, 0, 1, 1, 1/2, 1/2⟩

/-- C5 witness: with no events the maximum raw score is `0` and every
normalized risk is exactly `0`. -/
theorem C5_normalization_witness :
    maxRaw (rawRisks 0 [] [unitCell]) = 0 ∧
      ∀ r ∈ normalizeRisks (rawRisks 0 [] [unitCell]), r = 0 :=
  ⟨by simp [maxRaw, rawRisks, cellRawRisk],
    (C5_normalization 0 [] [unitCell]).2 (by simp [maxRaw, rawRisks, cellRawRisk])⟩

lemma mem_gridCells {minx miny maxx maxy c : ℚ} {cell : GridCell} :
    cell ∈ gridCells minx miny maxx maxy c ↔
      ∃ i < (⌈(maxx - minx) / c⌉).toNat, ∃ j < (⌈(maxy - miny) / c⌉).toNat,
        cellAt minx miny maxx maxy c i j = cell := by
  simp [gridCells, List.mem_flatMap, List.mem_range]

lemma gridCells_length (minx miny maxx maxy c : ℚ) :
    (gridCells minx miny maxx maxy c).length =
      (⌈(maxx - minx) / c⌉).toNat * (⌈(maxy - miny) / c⌉).toNat := by
  simp [gridCells, List.length_flatMap, Function.comp_def, List.map_const',
    List.sum_replicate, smul_eq_mul, mul_comm]

lemma ceil_toNat_pos {lo hi c : ℚ} (h : lo < hi) (hc : 0 < c) :
    0 < (⌈(hi - lo) / c⌉).toNat := by
  have h1 : 0 < (hi - lo) / c := div_pos (by linarith) hc
  have h2 : 0 < ⌈(hi - lo) / c⌉ := Int.ceil_pos.mpr h1
  omega

lemma nat_lt_of_lt_ceil_toNat {i : ℕ} {t : ℚ} (h : i < (⌈t⌉).toNat) : (i : ℚ) < t := by
  have h1 : (i : ℤ) < ⌈t⌉ := by omega
  have h2 : ((i : ℤ) : ℚ) + 1 ≤ (⌈t⌉ : ℚ) := by exact_mod_cast Int.add_one_le_iff.mpr h1
  have h3 : (⌈t⌉ : ℚ) < t + 1 := Int.ceil_lt_add_one t
  push_cast at h2
  linarith

/-- One axis of the tiling: every coordinate of `[lo, hi]` lands in the
extent of some tile index below the tile count. -/
lemma tile_cover {lo hi c t : ℚ} (hlo : lo < hi) (hc : 0 < c)
    (h1 : lo ≤ t) (h2 : t ≤ hi) :
    ∃ i : ℕ, i < (⌈(hi - lo) / c⌉).toNat ∧
      lo + i * c ≤ t ∧ t ≤ min (lo + i * c + c) hi := by
  set N := (⌈(hi - lo) / c⌉).toNat with hN
  have hNpos : 0 < N := ceil_toNat_pos hlo hc
  have hu : 0 ≤ (t - lo) / c := div_nonneg (by linarith) hc.le
  set k := (⌊(t - lo) / c⌋).toNat with hk
  have hkcast : (k : ℚ) ≤ (t - lo) / c := by
    have hfl : 0 ≤ ⌊(t - lo) / c⌋ := Int.floor_nonneg.mpr hu
    have : ((k : ℤ) : ℚ) ≤ (t - lo) / c := by
      rw [hk, Int.toNat_of_nonneg hfl]
      exact Int.floor_le _
    exact_mod_cast this
  refine ⟨min k (N - 1), lt_of_le_of_lt (min_le_right _ _) (Nat.sub_lt hNpos one_pos), ?_, ?_⟩
  · have hle : ((min k (N - 1) : ℕ) : ℚ) ≤ (k : ℚ) := by
      exact_mod_cast Nat.cast_le.mpr (min_le_left _ _)
    have : ((min k (N - 1) : ℕ) : ℚ) * c ≤ (t - lo) / c * c :=
      mul_le_mul_of_nonneg_right (le_trans hle hkcast) hc.le
    rw [div_mul_cancel₀ _ hc.ne'] at this
    linarith
  · refine le_min ?_ h2
    rcases le_or_lt k (N - 1) with hcase | hcase
    · rw [min_eq_left hcase]
      have hlt : (t - lo) / c < (k : ℚ) + 1 := by
        have hfl : 0 ≤ ⌊(t - lo) / c⌋ := Int.floor_nonneg.mpr hu
        have h4 : (t - lo) / c < (⌊(t - lo) / c⌋ : ℚ) + 1 := Int.lt_floor_add_one _
        have h5 : ((k : ℤ) : ℚ) = (⌊(t - lo) / c⌋ : ℚ) := by
          rw [hk, Int.toNat_of_nonneg hfl]
        push_cast at h5
        linarith
      have : (t - lo) / c * c < ((k : ℚ) + 1) * c :=
        mul_lt_mul_of_pos_right hlt hc
      rw [div_mul_cancel₀ _ hc.ne'] at this
      nlinarith
    · rw [min_eq_right hcase.le]
      have hceilpos : 0 < ⌈(hi - lo) / c⌉ := Int.ceil_pos.mpr (div_pos (by linarith) hc)
      have hNval : (N : ℚ) = (⌈(hi - lo) / c⌉ : ℚ) := by
        rw [hN]
        exact_mod_cast Int.toNat_of_nonneg hceilpos.le
      have hNc : hi - lo ≤ (N : ℚ) * c := by
        have hceil : (hi - lo) / c ≤ (⌈(hi - lo) / c⌉ : ℚ) := Int.le_ceil _
        have hmul := mul_le_mul_of_nonneg_right hceil hc.le
        rw [div_mul_cancel₀ _ hc.ne'] at hmul
        rw [hNval]
        exact hmul
      have hcastN : ((N - 1 : ℕ) : ℚ) = (N : ℚ) - 1 := by
        have h1N : (1 : ℕ) ≤ N := hNpos
        push_cast [Nat.cast_sub h1N]
        ring
      rw [hcastN, show lo + ((N : ℚ) - 1) * c + c = lo + (N : ℚ) * c by ring]
      linarith

/-- One axis of the tiling: two tile extents overlap in their interiors only
if they are the same tile. -/
lemma tile_disjoint {lo hi c x : ℚ} (hc : 0 < c) {i1 i2 : ℕ}
    (h1l : lo + i1 * c < x) (h1r : x < min (lo + i1 * c + c) hi)
    (h2l : lo + i2 * c < x) (h2r : x < min (lo + i2 * c + c) hi) : i1 = i2 := by
  rcases lt_trichotomy i1 i2 with hlt | heq | hlt
  · exfalso
    have hcast : (i1 : ℚ) + 1 ≤ (i2 : ℚ) := by exact_mod_cast hlt
    have hx : x < lo + i1 * c + c := lt_of_lt_of_le h1r (min_le_left _ _)
    nlinarith [mul_le_mul_of_nonneg_right hcast hc.le]
  · exact heq
  · exfalso
    have hcast : (i2 : ℚ) + 1 ≤ (i1 : ℚ) := by exact_mod_cast hlt
    have hx : x < lo + i2 * c + c := lt_of_lt_of_le h2r (min_le_left _ _)
    nlinarith [mul_le_mul_of_nonneg_right hcast hc.le]

lemma cellAt_bounds {minx miny maxx maxy c : ℚ} (hc : 0 < c) {i j : ℕ}
    (hi : i < (⌈(maxx - minx) / c⌉).toNat) (hj : j < (⌈(maxy - miny) / c⌉).toNat) :
    minx ≤ (cellAt minx miny maxx maxy c i j).x1 ∧
      (cellAt minx miny maxx maxy c i j).x1 < (cellAt minx miny maxx maxy c i j).x2 ∧
      (cellAt minx miny maxx maxy c i j).x2 ≤ maxx ∧
      miny ≤ (cellAt minx miny maxx maxy c i j).y1 ∧
      (cellAt minx miny maxx maxy c i j).y1 < (cellAt minx miny maxx maxy c i j).y2 ∧
      (cellAt minx miny maxx maxy c i j).y2 ≤ maxy := by
  have hix : (i : ℚ) < (maxx - minx) / c := nat_lt_of_lt_ceil_toNat hi
  have hjy : (j : ℚ) < (maxy - miny) / c := nat_lt_of_lt_ceil_toNat hj
  have hxw : (i : ℚ) * c < maxx - minx := by
    have h := mul_lt_mul_of_pos_right hix hc
    rwa [div_mul_cancel₀ _ hc.ne'] at h
  have hyw : (j : ℚ) * c < maxy - miny := by
    have h := mul_lt_mul_of_pos_right hjy hc
    rwa [div_mul_cancel₀ _ hc.ne'] at h
  have hinn : (0 : ℚ) ≤ (i : ℚ) * c := mul_nonneg (Nat.cast_nonneg i) hc.le
  have hjnn : (0 : ℚ) ≤ (j : ℚ) * c := mul_nonneg (Nat.cast_nonneg j) hc.le
  simp only [cellAt]
  exact ⟨by linarith, lt_min (by linarith) (by linarith), min_le_right _ _,
    by linarith, lt_min (by linarith) (by linarith), min_le_right _ _⟩

/-- C6: for a proper bounding box and a positive cell size, `_make_grid`
raises nothing and returns exactly `ceil(width/cell) * ceil(height/cell)`
cells, laid out in a stable column-major order (outer loop over the x axis),
each cell lying inside the box (clipped on its far edges), the cells jointly
covering every point of the box, and two cells sharing an interior point
only when they are the same cell. -/
theorem C6_grid_properties (minx miny maxx maxy c : ℚ)
    (hx : minx < maxx) (hy : miny < maxy) (hc : 0 < c) :
    ∃ grid, makeGrid minx miny maxx maxy c = some grid ∧
      grid.length = (⌈(maxx - minx) / c⌉).toNat * (⌈(maxy - miny) / c⌉).toNat ∧
      grid = (List.range (⌈(maxx - minx) / c⌉).toNat).flatMap
        (fun i => (List.range (⌈(maxy - miny) / c⌉).toNat).map
          (fun j => cellAt minx miny maxx maxy c i j)) ∧
      (∀ cell ∈ grid, minx ≤ cell.x1 ∧ cell.x1 < cell.x2 ∧ cell.x2 ≤ maxx ∧
        miny ≤ cell.y1 ∧ cell.y1 < cell.y2 ∧ cell.y2 ≤ maxy) ∧
      (∀ x y : ℚ, minx ≤ x → x ≤ maxx → miny ≤ y → y ≤ maxy →
        ∃ cell ∈ grid, cell.x1 ≤ x ∧ x ≤ cell.x2 ∧ cell.y1 ≤ y ∧ y ≤ cell.y2) ∧
      (∀ c1 ∈ grid, ∀ c2 ∈ grid,
        (∃ x y : ℚ, c1.x1 < x ∧ x < c1.x2 ∧ c1.y1 < y ∧ y < c1.y2 ∧
          c2.x1 < x ∧ x < c2.x2 ∧ c2.y1 < y ∧ y < c2.y2) → c1 = c2) := by
  refine ⟨gridCells minx miny maxx maxy c, by rw [makeGrid, if_neg hc.ne'],
    gridCells_length minx miny maxx maxy c, rfl, ?_, ?_, ?_⟩
  · intro cell hcell
    obtain ⟨i, hi, j, hj, rfl⟩ := mem_gridCells.mp hcell
    exact cellAt_bounds hc hi hj
  · intro x y hx1 hx2 hy1 hy2
    obtain ⟨i, hiN, hil, hir⟩ := tile_cover hx hc hx1 hx2
    obtain ⟨j, hjN, hjl, hjr⟩ := tile_cover hy hc hy1 hy2
    refine ⟨cellAt minx miny maxx maxy c i j,
      mem_gridCells.mpr ⟨i, hiN, j, hjN, rfl⟩, ?_, ?_, ?_, ?_⟩
    · simpa [cellAt] using by linarith
    · simp only [cellAt]
      exact le_min (by linarith [le_min_iff.mp hir]) (le_min_iff.mp hir).2
    · simpa [cellAt] using by linarith
    · simp only [cellAt]
      exact le_min (by linarith [le_min_iff.mp hjr]) (le_min_iff.mp hjr).2
  · intro c1 h1 c2 h2 hshare
    obtain ⟨i1, hi1, j1, hj1, rfl⟩ := mem_gridCells.mp h1
    obtain ⟨i2, hi2, j2, hj2, rfl⟩ := mem_gridCells.mp h2
    obtain ⟨x, y, p1, p2, p3, p4, p5, p6, p7, p8⟩ := hshare
    simp only [cellAt] at p1 p2 p3 p4 p5 p6 p7 p8
    have hieq : i1 = i2 := tile_disjoint hc p1 p2 p5 p6
    have hjeq : j1 = j2 := tile_disjoint hc p3 p4 p7 p8
    rw [hieq, hjeq]

/-- C6 witness at the box `(0,0)-(2,3)` with cell size `1`. -/
theorem C6_grid_properties_witness :
    (0 : ℚ) < 2 ∧ (0 : ℚ) < 3 ∧ (0 : ℚ) < 1 ∧
      (∃ grid, makeGrid 0 0 2 3 1 = some grid ∧
        grid.length = (⌈((2 : ℚ) - 0) / 1⌉).toNat * (⌈((3 : ℚ) - 0) / 1⌉).toNat ∧
        grid = (List.range (⌈((2 : ℚ) - 0) / 1⌉).toNat).flatMap
          (fun i => (List.range (⌈((3 : ℚ) - 0) / 1⌉).toNat).map
            (fun j => cellAt 0 0 2 3 1 i j)) ∧
        (∀ cell ∈ grid, (0 : ℚ) ≤ cell.x1 ∧ cell.x1 < cell.x2 ∧ cell.x2 ≤ 2 ∧
          (0 : ℚ) ≤ cell.y1 ∧ cell.y1 < cell.y2 ∧ cell.y2 ≤ 3) ∧
        (∀ x y : ℚ, 0 ≤ x → x ≤ 2 → 0 ≤ y → y ≤ 3 →
          ∃ cell ∈ grid, cell.x1 ≤ x ∧ x ≤ cell.x2 ∧ cell.y1 ≤ y ∧ y ≤ cell.y2) ∧
        (∀ c1 ∈ grid, ∀ c2 ∈ grid,
          (∃ x y : ℚ, c1.x1 < x ∧ x < c1.x2 ∧ c1.y1 < y ∧ y < c1.y2 ∧
            c2.x1 < x ∧ x < c2.x2 ∧ c2.y1 < y ∧ y < c2.y2) → c1 = c2)) :=
  ⟨by norm_num, by norm_num, by norm_num,
    C6_grid_properties 0 0 2 3 1 (by norm_num) (by norm_num) (by norm_num)⟩

lemma makeGrid_of_ne_zero {minx miny maxx maxy c : ℚ} (hc : c ≠ 0) :
    makeGrid minx miny maxx maxy c = some (gridCells minx miny maxx maxy c) := by
  rw [makeGrid, if_neg hc]

lemma gridCells_ne_nil {minx miny maxx maxy c : ℚ}
    (hx : minx < maxx) (hy : miny < maxy) (hc : 0 < c) :
    gridCells minx miny maxx maxy c ≠ [] := by
  have hlen : 0 < (gridCells minx miny maxx maxy c).length := by
    rw [gridCells_length]
    exact Nat.mul_pos (ceil_toNat_pos hx hc) (ceil_toNat_pos hy hc)
  exact List.length_pos.mp hlen

lemma predictCompute_empty
    (zonalStep : List (GridCell × ℝ) → Option (List (String × ℝ)))
    (b : BBox) (agg : String) (cell : ℚ) (store : Option (List Event)) (now : ℝ)
    (hstore : store = none ∨ store = some []) (hc : cell ≠ 0) :
    predictCompute zonalStep b agg cell store now =
      some (RiskOutput.cells
        ((gridCells b.minx b.miny b.maxx b.maxy cell).map fun c0 => (c0, 0))) := by
  rcases hstore with rfl | rfl <;>
    simp [predictCompute, makeGrid_of_ne_zero hc]

lemma predict_risk_miss
    (zonalStep : List (GridCell × ℝ) → Option (List (String × ℝ)))
    (cache : List (String × RiskOutput))
    (horizon : ℤ) (bbox : Option BBox) (agg : String) (cell : ℚ) (lookback : ℤ)
    (store : Option (List Event)) (now : ℝ)
    (hmiss : List.lookup (predictCacheKey bbox horizon agg cell lookback) cache = none) :
    predict_risk zonalStep cache horizon bbox agg cell lookback store now =
      (predictCompute zonalStep (resolveBBox bbox) agg cell store now).map
        (fun out => (out, (predictCacheKey bbox horizon agg cell lookback, out) :: cache)) := by
  simp only [predict_risk, hmiss]
  rcases h : predictCompute zonalStep (resolveBBox bbox) agg cell store now with _ | out <;>
    simp [h]

lemma predict_risk_hit
    (zonalStep : List (GridCell × ℝ) → Option (List (String × ℝ)))
    (cache : List (String × RiskOutput))
    (horizon : ℤ) (bbox : Option BBox) (agg : String) (cell : ℚ) (lookback : ℤ)
    (store : Option (List Event)) (now : ℝ) (v : RiskOutput)
    (hhit : List.lookup (predictCacheKey bbox horizon agg cell lookback) cache = some v) :
    predict_risk zonalStep cache horizon bbox agg cell lookback store now =
      some (v, cache) := by
  simp only [predict_risk, hhit]

/-- C7: on a cache miss with the event-store query failing (`store = none`,
the caught exception) or returning no rows (`store = some []`),
`predict_risk` returns the fully populated, nonempty grid of the bounding
box with every cell's risk exactly `0`, not an empty result and not a
propagated error. -/
theorem C7_empty_events_zero_surface
    (zonalStep : List (GridCell × ℝ) → Option (List (String × ℝ)))
    (horizon : ℤ) (bbox : Option BBox) (agg : String) (cell : ℚ) (lookback : ℤ)
    (store : Option (List Event)) (now : ℝ)
    (hstore : store = none ∨ store = some [])
    (hc : 0 < cell)
    (hx : (resolveBBox bbox).minx < (resolveBBox bbox).maxx)
    (hy : (resolveBBox bbox).miny < (resolveBBox bbox).maxy) :
    ∃ grid, makeGrid (resolveBBox bbox).minx (resolveBBox bbox).miny
        (resolveBBox bbox).maxx (resolveBBox bbox).maxy cell = some grid ∧
      grid ≠ [] ∧
      predict_risk zonalStep [] horizon bbox agg cell lookback store now =
        some (RiskOutput.cells (grid.map fun c0 => (c0, 0)),
          [(predictCacheKey bbox horizon agg cell lookback,
            RiskOutput.cells (grid.map fun c0 => (c0, 0)))]) := by
  refine ⟨gridCells (resolveBBox bbox).minx (resolveBBox bbox).miny
      (resolveBBox bbox).maxx (resolveBBox bbox).maxy cell,
    makeGrid_of_ne_zero hc.ne', gridCells_ne_nil hx hy hc, ?_⟩
  rw [predict_risk_miss zonalStep [] horizon bbox agg cell lookback store now (by rfl),
    predictCompute_empty zonalStep (resolveBBox bbox) agg cell store now hstore hc.ne']
  rfl

/-- C7 witness: absent bbox (world extent), failing store query, cell size 1. -/
theorem C7_empty_events_zero_surface_witness :
    ((none : Option (List Event)) = none ∨ (none : Option (List Event)) = some []) ∧
      (0 : ℚ) < 1 ∧
      (resolveBBox none).minx < (resolveBBox none).maxx ∧
      (resolveBBox none).miny < (resolveBBox none).maxy ∧
      (∃ grid, makeGrid (resolveBBox none).minx (resolveBBox none).miny
          (resolveBBox none).maxx (resolveBBox none).maxy 1 = some grid ∧
        grid ≠ [] ∧
        predict_risk (fun _ => none) [] 7 none "cell" 1 365 none 0 =
          some (RiskOutput.cells (grid.map fun c0 => (c0, 0)),
            [(predictCacheKey none 7 "cell" 1 365,
              RiskOutput.cells (grid.map fun c0 => (c0, 0)))])) :=
  ⟨Or.inl rfl, by norm_num, by norm_num [resolveBBox, worldBBox],
    by norm_num [resolveBBox, worldBBox],
    C7_empty_events_zero_surface (fun _ => none) 7 none "cell" 1 365 none 0
      (Or.inl rfl) (by norm_num) (by norm_num [resolveBBox, worldBBox])
      (by norm_num [resolveBBox, worldBBox])⟩

/-- C8: `horizon_days` is inert for the computed risk surface: on a cache
miss (both keys absent from the cache) two calls that differ only in
`horizon_days` return the same output surface. -/
theorem C8_horizon_inert
    (zonalStep : List (GridCell × ℝ) → Option (List (String × ℝ)))
    (cache : List (String × RiskOutput))
    (h1 h2 : ℤ) (bbox : Option BBox) (agg : String) (cell : ℚ) (lookback : ℤ)
    (store : Option (List Event)) (now : ℝ)
    (m1 : List.lookup (predictCacheKey bbox h1 agg cell lookback) cache = none)
    (m2 : List.lookup (predictCacheKey bbox h2 agg cell lookback) cache = none) :
    (predict_risk zonalStep cache h1 bbox agg cell lookback store now).map Prod.fst =
      (predict_risk zonalStep cache h2 bbox agg cell lookback store now).map Prod.fst := by
  rw [predict_risk_miss zonalStep cache h1 bbox agg cell lookback store now m1,
    predict_risk_miss zonalStep cache h2 bbox agg cell lookback store now m2]
  rcases h : predictCompute zonalStep (resolveBBox bbox) agg cell store now with _ | out <;>
    simp [h]

/-- C8 witness: horizons 7 and 90 on an empty cache. -/
theorem C8_horizon_inert_witness :
    List.lookup (predictCacheKey none 7 "cell" 1 365)
        ([] : List (String × RiskOutput)) = none ∧
      List.lookup (predictCacheKey none 90 "cell" 1 365)
        ([] : List (String × RiskOutput)) = none ∧
      (predict_risk (fun _ => none) [] 7 none "cell" 1 365 none 0).map Prod.fst =
        (predict_risk (fun _ => none) [] 90 none "cell" 1 365 none 0).map Prod.fst :=
  ⟨rfl, rfl,
    C8_horizon_inert (fun _ => none) [] 7 90 none "cell" 1 365 none 0 rfl rfl⟩

/-- C10: when the event-store query fails (`store = none`), `predict_risk`
stores the all-zero surface in the cache under the request's key before
returning it, and every subsequent request with the same key parameters is
answered from the cache with that same all-zero surface — whatever the event
store would return then (`later` is arbitrary, so the store is never
consulted), for any reference time and any zonal step. -/
theorem C10_failure_result_cached
    (zs1 zs2 : List (GridCell × ℝ) → Option (List (String × ℝ)))
    (horizon : ℤ) (bbox : Option BBox) (agg : String) (cell : ℚ) (lookback : ℤ)
    (now1 now2 : ℝ) (later : Option (List Event))
    (hc : cell ≠ 0) :
    ∃ grid, makeGrid (resolveBBox bbox).minx (resolveBBox bbox).miny
        (resolveBBox bbox).maxx (resolveBBox bbox).maxy cell = some grid ∧
      predict_risk zs1 [] horizon bbox agg cell lookback none now1 =
        some (RiskOutput.cells (grid.map fun c0 => (c0, 0)),
          [(predictCacheKey bbox horizon agg cell lookback,
            RiskOutput.cells (grid.map fun c0 => (c0, 0)))]) ∧
      predict_risk zs2
          [(predictCacheKey bbox horizon agg cell lookback,
            RiskOutput.cells (grid.map fun c0 => (c0, 0)))]
          horizon bbox agg cell lookback later now2 =
        some (RiskOutput.cells (grid.map fun c0 => (c0, 0)),
          [(predictCacheKey bbox horizon agg cell lookback,
            RiskOutput.cells (grid.map fun c0 => (c0, 0)))]) := by
  refine ⟨gridCells (resolveBBox bbox).minx (resolveBBox bbox).miny
      (resolveBBox bbox).maxx (resolveBBox bbox).maxy cell,
    makeGrid_of_ne_zero hc, ?_, ?_⟩
  · rw [predict_risk_miss zs1 [] horizon bbox agg cell lookback none now1 (by rfl),
      predictCompute_empty zs1 (resolveBBox bbox) agg cell none now1 (Or.inl rfl) hc]
    rfl
  · apply predict_risk_hit
    simp [List.lookup]

/-- C10 witness: world bbox, horizon 7, cell size 1, with the second request
carrying a now-healthy store result that is nevertheless ignored. -/
theorem C10_failure_result_cached_witness :
    (1 : ℚ) ≠ 0 ∧
      (∃ grid, makeGrid (resolveBBox none).minx (resolveBBox none).miny
          (resolveBBox none).maxx (resolveBBox none).maxy 1 = some grid ∧
        predict_risk (fun _ => none) [] 7 none "cell" 1 365 none 0 =
          some (RiskOutput.cells (grid.map fun c0 => (c0, 0)),
            [(predictCacheKey none 7 "cell" 1 365,
              RiskOutput.cells (grid.map fun c0 => (c0, 0)))]) ∧
        predict_risk (fun _ => none)
            [(predictCacheKey none 7 "cell" 1 365,
              RiskOutput.cells (grid.map fun c0 => (c0, 0)))]
            7 none "cell" 1 365 (some [⟨10, 10, some 5, 0⟩]) 1 =
          some (RiskOutput.cells (grid.map fun c0 => (c0, 0)),
            [(predictCacheKey none 7 "cell" 1 365,
              RiskOutput.cells (grid.map fun c0 => (c0, 0)))])) :=
  ⟨by norm_num,
    C10_failure_result_cached (fun _ => none) (fun _ => none) 7 none "cell" 1 365
      0 1 (some [⟨10, 10, some 5, 0⟩]) (by norm_num)⟩

lemma filter_beq_singleton {names : List String} {n : String} (hnd : names.Nodup)
    (hn : n ∈ names) (q : String → Bool) :
    names.filter (fun m => (m == n) && q m) = if q n then [n] else [] := by
  induction names with
  | nil => cases hn
  | cons a as ih =>
    rw [List.nodup_cons] at hnd
    rcases List.mem_cons.mp hn with rfl | hmem
    · have htail : as.filter (fun m => (m == n) && q m) = [] := by
        refine List.filter_eq_nil_iff.mpr fun m hm => ?_
        have hne : m ≠ n := fun h => hnd.1 (h ▸ hm)
        simp [hne]
      rcases hq : q n with _ | _ <;>
        simp [List.filter_cons, hq, htail]
    · have hne : a ≠ n := fun h => hnd.1 (h ▸ hmem)
      have hhead : ((a == n) && q a) = false := by simp [hne]
      simp only [List.filter_cons, hhead, cond_false]
      exact ih hnd.2 hmem

/-- The join rows carrying name `n` are exactly the cells intersecting `n`
(provided country names are unique, as in the country dataset). -/
lemma sjoinRows_filter_name {surface : List (GridCell × ℝ)} {names : List String}
    {intersects : GridCell → String → Bool} {n : String}
    (hnd : names.Nodup) (hn : n ∈ names) :
    (sjoinRows surface names intersects).filter (fun r => r.2.2 == n) =
      (assocCells surface intersects n).map (fun cr => (cr.1, cr.2, n)) := by
  induction surface with
  | nil => rfl
  | cons cr tl ih =>
    simp only [sjoinRows, List.flatMap_cons, List.filter_append] at ih ⊢
    have hhead : (((names.filter fun m => intersects cr.1 m).map
          (fun m => (cr.1, cr.2, m))).filter (fun r => r.2.2 == n)) =
        if intersects cr.1 n then [(cr.1, cr.2, n)] else [] := by
      rw [List.filter_map]
      have hcomp : ((fun r : GridCell × ℝ × String => r.2.2 == n) ∘
          fun m => (cr.1, cr.2, m)) = fun m => m == n := rfl
      rw [hcomp, List.filter_filter, filter_beq_singleton hnd hn]
      rcases h : intersects cr.1 n with _ | _ <;> simp
    rcases h : intersects cr.1 n with _ | _ <;>
      · rw [h] at hhead
        rw [hhead, ih]
        simp [assocCells, List.filter_cons, h]

/-- C4 counterexample: a single cell intersecting two named polygons is
associated with both of them by the `intersects` spatial join (two join
rows, not at most one), and its risk enters both polygons' means — refuting
the zero-or-one association of the claim. -/
theorem C4_counterexample :
    (assocNames ["A", "B"] (fun _ _ => true) unitCell).length = 2 ∧
      ¬ (assocNames ["A", "B"] (fun _ _ => true) unitCell).length ≤ 1 ∧
      ("A", (1 : ℝ)) ∈ zonalReduce [(unitCell, 1)] ["A", "B"] (fun _ _ => true) ∧
      ("B", (1 : ℝ)) ∈ zonalReduce [(unitCell, 1)] ["A", "B"] (fun _ _ => true) := by
  have hAB : ("A" : String) ≠ "B" := by decide
  have hBA : ("B" : String) ≠ "A" := by decide
  refine ⟨rfl, by norm_num [assocNames], ?_, ?_⟩ <;>
    norm_num [zonalReduce, sjoinRows, List.filter_cons, List.flatMap_cons, hAB, hBA]

/-- C4 amended: in zonal mode each cell is associated with every polygon it
intersects (possibly more than one), and each named polygon present in the
output carries exactly the arithmetic mean of the risks of the cells
intersecting it; a polygon intersecting no cell is absent from the output. -/
theorem C4_zonal_mean (surface : List (GridCell × ℝ)) (names : List String)
    (intersects : GridCell → String → Bool) (n : String)
    (hn : n ∈ names) (hnd : names.Nodup) :
    (assocCells surface intersects n ≠ [] →
      (n, ((assocCells surface intersects n).map Prod.snd).sum /
          ((assocCells surface intersects n).length : ℝ)) ∈
        zonalReduce surface names intersects) ∧
    (assocCells surface intersects n = [] →
      ∀ x : ℝ, (n, x) ∉ zonalReduce surface names intersects) := by
  have hkey := @sjoinRows_filter_name surface names intersects n hnd hn
  constructor
  · intro hne
    rw [zonalReduce]
    refine List.mem_map.mpr ⟨n, ?_, ?_⟩
    · refine List.mem_filter.mpr ⟨hn, ?_⟩
      rw [hkey]
      simp [hne]
    · rw [hkey]
      simp [List.map_map, Function.comp]
      rfl
  · intro hempty x hmem
    rw [zonalReduce] at hmem
    obtain ⟨m, hmf, heq⟩ := List.mem_map.mp hmem
    have hmn : m = n := by
      have := congrArg Prod.fst heq
      simpa using this
    subst hmn
    have hflt := (List.mem_filter.mp hmf).2
    rw [hkey, hempty] at hflt
    simp at hflt

/-- C4 witness for the amended theorem: one cell and one polygon that
intersects it. -/
theorem C4_zonal_mean_witness :
    ("A" ∈ ["A"]) ∧ (["A"] : List String).Nodup ∧
      assocCells [(unitCell, (1 : ℝ))] (fun _ _ => true) "A" ≠ [] ∧
      ("A", ((assocCells [(unitCell, (1 : ℝ))] (fun _ _ => true) "A").map Prod.snd).sum /
          ((assocCells [(unitCell, (1 : ℝ))] (fun _ _ => true) "A").length : ℝ)) ∈
        zonalReduce [(unitCell, 1)] ["A"] (fun _ _ => true) :=
  ⟨by simp, by simp, by simp [assocCells],
    (C4_zonal_mean [(unitCell, 1)] ["A"] (fun _ _ => true) "A" (by simp) (by simp)).1
      (by simp [assocCells])⟩
